import Mathlib

/-!
Verification development for the site-health crawler
(scripts/website_checker.py).

The Python source is shallowly embedded: pure helpers (URL normalization,
domain classification, the LinkedIn-999 predicate) become Lean functions;
the crawl loop becomes a fuel-indexed step function over an explicit
state record; HTTP is modelled by a finite association list (the "world")
mapping a URL to the outcome one GET of it produces.  Wall-clock timing
fields (elapsed, duration_seconds) are not modelled.
-/

namespace WebsiteChecker

/-! ### Character-list helpers for the URL parser

Python's urllib.parse.urlsplit / urlparse, restricted to what
normalize_url and the crawl loop consume (scheme, netloc, path, params,
query, fragment, hostname).  Modelled after CPython's algorithm:
leading C0-control/space characters are stripped, tab/CR/LF are removed
everywhere, the scheme is split at the first colon when it is a valid
scheme token, the netloc after a leading //, then the fragment at the
first hash, then the query at the first question mark.  The IPv6
bracket validation (which raises ValueError in CPython) is not
modelled; no claim involves bracketed hosts. -/

/-- splitAtFirst c l: if c occurs in l, the parts strictly before and after
its first occurrence. -/
def splitAtFirst (c : Char) : List Char → Option (List Char × List Char)
  | [] => none
  | x :: xs =>
    if x = c then some ([], xs)
    else
      match splitAtFirst c xs with
      | none => none
      | some (a, b) => some (x :: a, b)

/-- splitAtLast c l: the parts strictly before and after the last occurrence
of c in l, when c occurs. -/
def splitAtLast (c : Char) : List Char → Option (List Char × List Char)
  | [] => none
  | x :: xs =>
    match splitAtLast c xs with
    | some (a, b) => some (x :: a, b)
    | none => if x = c then some ([], xs) else none

/-- CPython strips leading WHATWG C0-control-or-space characters
(codepoints up to 0x20) from the URL before parsing. -/
def lstripC0 : List Char → List Char
  | [] => []
  | c :: cs => if c.toNat ≤ 32 then lstripC0 cs else c :: cs

/-- CPython removes every tab, CR and LF byte from the URL before parsing. -/
def removeCtl (l : List Char) : List Char :=
  l.filter (fun c => !(c == '\t' || c == '\n' || c == '\r'))

/-- Characters allowed in a scheme token after its leading letter
(CPython scheme_chars). -/
def schemeChar (c : Char) : Bool :=
  c.isAlphanum || c == '+' || c == '-' || c == '.'

/-- Scheme splitting: at the first colon, provided the text before it is a
letter followed by scheme characters; the scheme is lowercased.
Returns (scheme, remainder); scheme is empty when no scheme was split. -/
def splitScheme (l : List Char) : List Char × List Char :=
  match splitAtFirst ':' l with
  | none => ([], l)
  | some (pre, post) =>
    match pre with
    | [] => ([], l)
    | c0 :: cs =>
      if c0.isAlpha && cs.all schemeChar then ((c0 :: cs).map Char.toLower, post)
      else ([], l)

/-- Netloc characters run until the first of slash, question mark or hash. -/
def takeUntilDelims : List Char → List Char × List Char
  | [] => ([], [])
  | c :: cs =>
    if c = '/' ∨ c = '?' ∨ c = '#' then ([], c :: cs)
    else
      let p := takeUntilDelims cs
      (c :: p.1, p.2)

/-- Netloc splitting: only when the remainder starts with two slashes. -/
def splitNetloc (l : List Char) : List Char × List Char :=
  match l with
  | c1 :: c2 :: rest =>
    if c1 = '/' ∧ c2 = '/' then takeUntilDelims rest
    else ([], l)
  | _ => ([], l)

/-- Fragment splitting at the first hash: (before, fragment). -/
def splitFragment (l : List Char) : List Char × List Char :=
  match splitAtFirst '#' l with
  | none => (l, [])
  | some (a, b) => (a, b)

/-- Query splitting at the first question mark: (before, query). -/
def splitQuery (l : List Char) : List Char × List Char :=
  match splitAtFirst '?' l with
  | none => (l, [])
  | some (a, b) => (a, b)

/-- Result of urlsplit restricted to the five components. -/
structure SplitCore where
  scheme : List Char
  netloc : List Char
  path : List Char
  query : List Char
  fragment : List Char
deriving DecidableEq

/-- The cleanup CPython applies to the raw URL text before splitting. -/
def cleanUrl (l : List Char) : List Char :=
  removeCtl (lstripC0 l)

/-- urlsplit on an already cleaned-up character list: scheme, then netloc,
then fragment, then query. -/
def splitClean (url : List Char) : SplitCore :=
  let p1 := splitScheme url
  let p2 := splitNetloc p1.2
  let p3 := splitFragment p2.2
  let p4 := splitQuery p3.1
  ⟨p1.1, p2.1, p4.1, p4.2, p3.2⟩

/-- CPython urlsplit. -/
def urlsplitCore (url : List Char) : SplitCore :=
  splitClean (cleanUrl url)

/-- CPython _splitparams: the params segment starts at the first semicolon
at or after the last slash of the path (first semicolon overall when the
path has no slash). -/
def splitParams (l : List Char) : List Char × List Char :=
  match splitAtLast '/' l with
  | some (pre, post) =>
    match splitAtFirst ';' post with
    | none => (l, [])
    | some (a, b) => (pre ++ '/' :: a, b)
  | none =>
    match splitAtFirst ';' l with
    | none => (l, [])
    | some (a, b) => (a, b)

/-- Schemes for which urlparse splits a params segment off the path
(CPython uses_params). -/
def usesParams : List String :=
  ["", "ftp", "hdl", "prospero", "http", "imap", "https", "shttp", "rtsp",
   "rtsps", "rtspu", "sip", "sips", "mms", "sftp", "tel"]

/-- Result of urlparse restricted to the components this program reads. -/
structure ParseCore where
  scheme : List Char
  netloc : List Char
  path : List Char
  params : List Char
  query : List Char
  fragment : List Char
deriving DecidableEq

/-- CPython urlparse: urlsplit plus the params split for the schemes that
use params. -/
def urlparseCore (url : List Char) : ParseCore :=
  let s := urlsplitCore url
  if s.scheme.asString ∈ usesParams ∧ ';' ∈ s.path then
    let p := splitParams s.path
    ⟨s.scheme, s.netloc, p.1, p.2, s.query, s.fragment⟩
  else ⟨s.scheme, s.netloc, s.path, [], s.query, s.fragment⟩

/-- CPython's hostname: the netloc after the last at-sign, then either the
bracketed host or the part before the first colon, lowercased.  An empty
hostname (None in Python) is represented as the empty list; every caller
in the source immediately coalesces None to the empty string.  CPython
keeps the case of an IPv6 zone id (after a percent sign); every consumer
in the source lowercases the hostname again, so full lowercasing here is
observationally equivalent. -/
def hostnameOf (netloc : List Char) : List Char :=
  let hostinfo :=
    match splitAtLast '@' netloc with
    | some (_, post) => post
    | none => netloc
  let host :=
    match splitAtFirst '[' hostinfo with
    | some (_, br) =>
      match splitAtFirst ']' br with
      | some (h, _) => h
      | none => br
    | none =>
      match splitAtFirst ':' hostinfo with
      | some (h, _) => h
      | none => hostinfo
  host.map Char.toLower

/-! ### String primitives

List-based models of the Python string operations the source uses
(lower, startswith, endswith, strip, slicing).  Python's lower and strip
also act on a handful of non-ASCII characters; every string they are
applied to in this program is ASCII. -/

/-- Python str.lower on ASCII text. -/
def strLower (s : String) : String := String.mk (s.data.map Char.toLower)

/-- Python str.startswith. -/
def strStarts (s p : String) : Bool := p.data.isPrefixOf s.data

/-- Python str.endswith. -/
def strEnds (s p : String) : Bool := p.data.isSuffixOf s.data

/-- Python slicing from the start: s[:n]. -/
def strTake (s : String) (n : Nat) : String := String.mk (s.data.take n)

/-- Python slicing of a prefix away: s[n:]. -/
def strDrop (s : String) (n : Nat) : String := String.mk (s.data.drop n)

/-- The ASCII whitespace Python str.strip removes. -/
def pySpace (c : Char) : Bool :=
  c == ' ' || c == '\t' || c == '\n' || c == '\r' || c == '\x0b' || c == '\x0c'

/-- Python str.strip on ASCII text. -/
def strTrim (s : String) : String :=
  String.mk (((s.data.dropWhile pySpace).reverse.dropWhile pySpace).reverse)

/-- The parse components of a URL string, as the source reads them. -/
structure UrlParts where
  scheme : String
  netloc : String
  path : String
  params : String
  query : String
  fragment : String
  hostname : String
deriving DecidableEq

/-- urlparse on strings; hostname is included as a precomputed field
(a property on the Python side). -/
def urlparse (u : String) : UrlParts :=
  let c := urlparseCore u.data
  ⟨c.scheme.asString, c.netloc.asString, c.path.asString, c.params.asString,
   c.query.asString, c.fragment.asString, (hostnameOf c.netloc).asString⟩

/-- Schemes for which urlunsplit inserts the double slash even when the
netloc is empty (CPython uses_netloc). -/
def usesNetloc : List String :=
  ["", "ftp", "http", "gopher", "nntp", "telnet", "imap", "wais", "file",
   "mms", "https", "shttp", "snews", "prospero", "rtsp", "rtsps", "rtspu",
   "rsync", "svn", "svn+ssh", "sftp", "nfs", "git", "git+ssh", "ws", "wss"]

/-- CPython urlunsplit. -/
def urlunsplit (scheme netloc url query fragment : String) : String :=
  let url :=
    if netloc ≠ "" ∨ (scheme ≠ "" ∧ scheme ∈ usesNetloc ∧ strTake url 2 ≠ "//") then
      "//" ++ netloc ++ (if url ≠ "" ∧ strTake url 1 ≠ "/" then "/" ++ url else url)
    else url
  let url := if scheme ≠ "" then scheme ++ ":" ++ url else url
  let url := if query ≠ "" then url ++ "?" ++ query else url
  if fragment ≠ "" then url ++ "#" ++ fragment else url

/-- CPython urlunparse. -/
def urlunparse (scheme netloc url params query fragment : String) : String :=
  let url := if params ≠ "" then url ++ ";" ++ params else url
  urlunsplit scheme netloc url query fragment

/-- normalize_url from the source: empty input is returned as is; a URL
whose parsed scheme is not http or https is returned unchanged; otherwise
the URL is rebuilt with a lowercased netloc, the path exactly as parsed
(the source computes a default path and an endswith test whose two
branches both assign the parsed path back, so the path is used verbatim),
the query kept and the params and fragment dropped. -/
def normalize_url (raw_url : String) : String :=
  if raw_url = "" then ""
  else
    let parsed := urlparse raw_url
    if ¬ (parsed.scheme = "http" ∨ parsed.scheme = "https") then raw_url
    else
      let path := if strEnds parsed.path "/" then parsed.path else parsed.path
      urlunparse parsed.scheme (strLower parsed.netloc) path "" parsed.query ""

/-! ### The crawler

The HTTP side is modelled by a finite association list (the world)
mapping a URL to the outcome a GET of it produces: either a transport
exception carrying its message, or a response with a status code, a
body, a Content-Type header and the absolute anchor/image references
BeautifulSoup would extract from the body (HTML parsing and urljoin
resolution are performed by external libraries; a response carries the
already-resolved absolute references).  A URL absent from the list
behaves as a transport failure. -/

/-- Outcome of one GET of a URL. -/
inductive FetchOutcome where
  | exc (msg : String)
  | resp (status : Nat) (body : String) (contentType : String)
      (hrefs : List String) (srcs : List String)
deriving DecidableEq

/-- The network: what one GET of each URL returns. -/
abbrev World : Type := List (String × FetchOutcome)

/-- Look up what a GET of the URL produces; unknown hosts are transport
failures. -/
def fetchOutcome (w : World) (url : String) : FetchOutcome :=
  match w.find? (fun p => p.1 = url) with
  | some p => p.2
  | none => .exc "connection error"

/-- UrlCheckResult from the source; the wall-clock elapsed field is not
modelled. -/
structure UrlCheckResult where
  url : String
  status_code : Option Nat
  ok : Bool
  detail : Option String
deriving DecidableEq

/-- Python coalescing of an optional string: None and the empty string
both fall back to the default. -/
def pyStrOr (s : Option String) (dflt : String) : String :=
  match s with
  | some v => if v = "" then dflt else v
  | none => dflt

/-- WebsiteChecker._fetch: status in 200..399 is success; on success the
detail is the body when the body was requested and the Content-Type
header otherwise; a failing status yields detail "HTTP status"; a
transport exception yields ok false, no status code and the exception
message as detail, and never propagates. -/
def fetch (w : World) (url : String) (store_body : Bool) : UrlCheckResult :=
  match fetchOutcome w url with
  | .exc msg => ⟨url, none, false, some msg⟩
  | .resp status body contentType _ _ =>
    if 200 ≤ status ∧ status < 400 then
      if store_body then ⟨url, some status, true, some body⟩
      else ⟨url, some status, true, some contentType⟩
    else ⟨url, some status, false, some ("HTTP " ++ toString status)⟩

/-- Anchor references of a fetched page, as the crawl loop sees them. -/
def pageHrefs (w : World) (url : String) : List String :=
  match fetchOutcome w url with
  | .exc _ => []
  | .resp _ _ _ hrefs _ => hrefs

/-- Image references of a fetched page, as the crawl loop sees them. -/
def pageSrcs (w : World) (url : String) : List String :=
  match fetchOutcome w url with
  | .exc _ => []
  | .resp _ _ _ _ srcs => srcs

/-- extract_links from the source: each non-empty href is resolved and
normalized, empty normalizations are dropped and the result is a set
(here: a deduplicated list keeping first occurrences). -/
def extract_links (hrefs : List String) : List String :=
  (hrefs.filterMap (fun href =>
    if href = "" then none
    else
      let normalized := normalize_url href
      if normalized = "" then none else some normalized)).dedup

/-- extract_images from the source, same shape as extract_links. -/
def extract_images (srcs : List String) : List String :=
  (srcs.filterMap (fun src =>
    if src = "" then none
    else
      let normalized := normalize_url src
      if normalized = "" then none else some normalized)).dedup

/-- build_internal_domains from the source: the lowercased base domain
plus its www-toggled variant when the base domain is non-empty, plus
every trimmed lowercased non-empty extra domain, with empty entries
filtered out.  Python returns a set; membership is all the program ever
asks of it, so a list represents it. -/
def build_internal_domains (base_domain : String)
    (extra_domains : List String) : List String :=
  let domains :=
    if base_domain ≠ "" then
      let base := strLower base_domain
      if strStarts base "www." then [base, strDrop base 4]
      else [base, "www." ++ base]
    else []
  let domains := domains ++ extra_domains.filterMap (fun domain =>
    let cleaned := strLower (strTrim domain)
    if cleaned = "" then none else some cleaned)
  domains.filter (fun domain => domain ≠ "")

/-- is_linkedin_domain from the source. -/
def is_linkedin_domain (domain : String) : Bool :=
  strEnds (strLower domain) "linkedin.com"

/-- Issue from the source. -/
structure Issue where
  kind : String
  message : String
  source : Option String
  target : Option String
  status_code : Option Nat
deriving DecidableEq

/-- The page_error Issue built in the crawl loop. -/
def pageErrIssue (current : String) (r : UrlCheckResult) : Issue :=
  { kind := "page_error"
    message := "Failed to load page " ++ current ++ ": " ++ pyStrOr r.detail "HTTP error"
    source := some current
    target := none
    status_code := r.status_code }

/-- The link_warning Issue built for the LinkedIn HTTP-999 case. -/
def linkWarnIssue (current link : String) (r : UrlCheckResult) : Issue :=
  { kind := "link_warning"
    message := "LinkedIn returned HTTP 999 (likely bot protection). Please verify manually."
    source := some current
    target := some link
    status_code := r.status_code }

/-- The link_error Issue built for a failing link. -/
def linkErrIssue (current link : String) (r : UrlCheckResult) : Issue :=
  { kind := "link_error"
    message := "Link failed to load: " ++ pyStrOr r.detail "HTTP error"
    source := some current
    target := some link
    status_code := r.status_code }

/-- The image_error Issue built for an image that failed to load. -/
def imageLoadErrIssue (current image : String) (r : UrlCheckResult) : Issue :=
  { kind := "image_error"
    message := "Image failed to load: " ++ pyStrOr r.detail "HTTP error"
    source := some current
    target := some image
    status_code := r.status_code }

/-- The image_error Issue built for a wrong content type; the source
constructs it without a status code. -/
def imageTypeErrIssue (current image : String) : Issue :=
  { kind := "image_error"
    message := "Image URL did not return an image content type."
    source := some current
    target := some image
    status_code := none }

/-- The mutable collections the WebsiteChecker instance owns during a run. -/
structure CrawlState where
  visited_pages : List (String × UrlCheckResult)
  checked_links : List (String × UrlCheckResult)
  checked_images : List (String × UrlCheckResult)
  issues : List Issue
  warnings : List Issue
deriving DecidableEq

/-- The per-link body of the crawl loop: skip non-HTTP schemes; on first
sight of the URL fetch it without body, record it, and emit a
link_warning for LinkedIn HTTP 999 or a link_error for any other
failure; finally enqueue the link when its host is internal and it is
not in seen.  The accumulator carries the state and the list of URLs
appended to the frontier so far during this page visit. -/
def checkLink (w : World) (internal : List String) (current : String)
    (seen : List String) (acc : CrawlState × List String) (link : String) :
    CrawlState × List String :=
  let parsed := urlparse link
  if ¬ (parsed.scheme = "http" ∨ parsed.scheme = "https") then acc
  else
    let domain := strLower parsed.hostname
    let st := acc.1
    let st :=
      if link ∈ st.checked_links.map Prod.fst then st
      else
        let result := fetch w link false
        let st := { st with checked_links := st.checked_links ++ [(link, result)] }
        if result.ok then st
        else if result.status_code = some 999 ∧ is_linkedin_domain domain then
          { st with warnings := st.warnings ++ [linkWarnIssue current link result] }
        else
          { st with issues := st.issues ++ [linkErrIssue current link result] }
    let enq :=
      if domain ∈ internal ∧ link ∉ seen then acc.2 ++ [link] else acc.2
    (st, enq)

/-- The per-image body of the crawl loop: skip non-HTTP schemes and
already-checked images; otherwise fetch without body, record, and emit
an image_error on a failed fetch or on a Content-Type that does not
start with image/. -/
def checkImage (w : World) (current : String) (st : CrawlState)
    (image : String) : CrawlState :=
  let parsed := urlparse image
  if ¬ (parsed.scheme = "http" ∨ parsed.scheme = "https") then st
  else if image ∈ st.checked_images.map Prod.fst then st
  else
    let result := fetch w image false
    let st := { st with checked_images := st.checked_images ++ [(image, result)] }
    if ¬ result.ok then
      { st with issues := st.issues ++ [imageLoadErrIssue current image result] }
    else
      let content_type := pyStrOr result.detail ""
      if ¬ strStarts content_type "image/" then
        { st with issues := st.issues ++ [imageTypeErrIssue current image] }
      else st

/-- Processing of one successfully fetched page: run the link loop over
the extracted links, then the image loop over the extracted images.
Returns the updated state and the URLs to append to the frontier. -/
def visitPage (w : World) (internal : List String) (current : String)
    (seen : List String) (st : CrawlState) : CrawlState × List String :=
  let links := extract_links (pageHrefs w current)
  let images := extract_images (pageSrcs w current)
  let p := links.foldl (checkLink w internal current seen) (st, [])
  (images.foldl (checkImage w current) p.1, p.2)

/-- The loop state: the frontier queue, the seen set of dequeued URLs,
and the instance collections. -/
structure LoopState where
  frontier : List String
  seen : List String
  st : CrawlState
deriving DecidableEq

/-- One iteration of the while loop in crawl: dequeue; skip if already
seen, else mark seen, fetch and record the page; on failure record a
page_error, otherwise process its links and images and append the new
internal URLs to the frontier. -/
def crawlStep (w : World) (internal : List String) (s : LoopState) : LoopState :=
  match s.frontier with
  | [] => s
  | current :: rest =>
    if current ∈ s.seen then ⟨rest, s.seen, s.st⟩
    else
      let seen := current :: s.seen
      let page_result := fetch w current true
      let st := { s.st with visited_pages := s.st.visited_pages ++ [(current, page_result)] }
      if ¬ page_result.ok then
        ⟨rest, seen, { st with issues := st.issues ++ [pageErrIssue current page_result] }⟩
      else
        let p := visitPage w internal current seen st
        ⟨rest ++ p.2, seen, p.1⟩

/-- The while loop, indexed by fuel; when the frontier is empty the loop
is finished.  Fuel exhaustion returns none; the termination theorem
exhibits a fuel value that always suffices. -/
def crawlLoop (w : World) (internal : List String) :
    Nat → LoopState → Option CrawlState
  | _, ⟨[], _, st⟩ => some st
  | 0, _ => none
  | fuel + 1, s => crawlLoop w internal fuel (crawlStep w internal s)

/-- The internal domain set the checker is constructed with: built from
the hostname of the normalized base URL plus the extra domains. -/
def crawlInternal (base_url : String) (extra : List String) : List String :=
  build_internal_domains (urlparse (normalize_url base_url)).hostname extra

/-- Running the crawl loop from the initial state: the frontier seeded
with the single normalized base URL, seen empty, all collections empty. -/
def crawlRun (w : World) (base_url : String) (extra : List String)
    (fuel : Nat) : Option CrawlState :=
  crawlLoop w (crawlInternal base_url extra) fuel
    ⟨[normalize_url base_url], [], ⟨[], [], [], [], []⟩⟩

/-- CrawlSummary from the source; the wall-clock duration field is not
modelled. -/
structure CrawlSummary where
  base_url : String
  checked_pages : Nat
  checked_links : Nat
  checked_images : Nat
  issues : List Issue
  warnings : List Issue
deriving DecidableEq

/-- The summary crawl() builds after the loop: counts are the sizes of
the three collections, and the warning list is passed through when a
link_error issue is present and replaced by the empty list otherwise
(the conditional at the end of crawl). -/
def mkSummary (base_url : String) (st : CrawlState) : CrawlSummary :=
  let link_errors_present := st.issues.any (fun issue => issue.kind == "link_error")
  { base_url := base_url
    checked_pages := st.visited_pages.length
    checked_links := st.checked_links.length
    checked_images := st.checked_images.length
    issues := st.issues
    warnings := if link_errors_present then st.warnings else [] }

/-- WebsiteChecker.crawl end to end. -/
def crawl (w : World) (base_url : String) (extra : List String)
    (fuel : Nat) : Option CrawlSummary :=
  (crawlRun w base_url extra fuel).map (mkSummary (normalize_url base_url))

/-! ### Concrete worlds used by counterexamples and witnesses -/

/-- A site whose page has one broken external link and one LinkedIn link
answering HTTP 999. -/
def worldErrAndWarn : World :=
  [("http://site.test/", .resp 200 "b" "text/html"
      ["http://broken.test/x", "http://www.linkedin.com/in/x"] []),
   ("http://broken.test/x", .resp 404 "" "" [] []),
   ("http://www.linkedin.com/in/x", .resp 999 "" "" [] [])]

/-- A site where two distinct pages both link the same third page. -/
def worldDiamond : World :=
  [("http://s.test/", .resp 200 "b" "text/html"
      ["http://s.test/a", "http://s.test/b"] []),
   ("http://s.test/a", .resp 200 "b" "text/html" ["http://s.test/c"] []),
   ("http://s.test/b", .resp 200 "b" "text/html" ["http://s.test/c"] []),
   ("http://s.test/c", .resp 200 "b" "text/html" [] [])]

/-- A site whose only outbound link is a LinkedIn profile answering 999. -/
def worldLinkedIn : World :=
  [("http://me.test/", .resp 200 "b" "text/html"
      ["http://www.linkedin.com/in/x"] []),
   ("http://www.linkedin.com/in/x", .resp 999 "" "" [] [])]

/-- An image URL answering 200 with a text/html content type. -/
def worldImageWrongType : World :=
  [("http://b.test/", .resp 200 "b" "text/html" [] ["http://b.test/logo.png"]),
   ("http://b.test/logo.png", .resp 200 "x" "text/html" [] [])]

/-- An image URL answering 404. -/
def worldImageMissing : World :=
  [("http://b.test/x.png", .resp 404 "" "" [] [])]

/-- The empty crawl state. -/
def emptyState : CrawlState := ⟨[], [], [], [], []⟩

/-! ### Helper lemmas about the fetcher -/

theorem fetch_ok_range (w : World) (url : String) (sb : Bool)
    (h : (fetch w url sb).ok = true) :
    ∃ s, (fetch w url sb).status_code = some s ∧ 200 ≤ s ∧ s < 400 := by
  revert h
  unfold fetch
  cases fetchOutcome w url with
  | exc msg => intro h; simp at h
  | resp status body ct hrefs srcs =>
    dsimp only
    by_cases hr : 200 ≤ status ∧ status < 400
    · rw [if_pos hr]
      cases sb <;> exact fun _ => ⟨status, rfl, hr.1, hr.2⟩
    · rw [if_neg hr]
      intro h; simp at h

theorem fetch_range_ok (w : World) (url : String) (sb : Bool)
    (s : Nat) (hs : (fetch w url sb).status_code = some s)
    (h1 : 200 ≤ s) (h2 : s < 400) : (fetch w url sb).ok = true := by
  revert hs
  unfold fetch
  cases fetchOutcome w url with
  | exc msg => intro hs; simp at hs
  | resp status body ct hrefs srcs =>
    dsimp only
    by_cases hr : 200 ≤ status ∧ status < 400
    · rw [if_pos hr]
      cases sb <;> exact fun _ => rfl
    · rw [if_neg hr]
      intro hs
      simp at hs
      exact absurd ⟨hs ▸ h1, hs ▸ h2⟩ hr

/-- C4 helper: a transport exception is represented as data. -/
theorem fetch_exc_eq (w : World) (url : String) (sb : Bool) (msg : String)
    (h : fetchOutcome w url = .exc msg) :
    fetch w url sb = ⟨url, none, false, some msg⟩ := by
  unfold fetch
  rw [h]

/-- C4: every UrlCheckResult a fetch produces has ok true exactly when a
status code is present and lies in the interval from 200 up to but not
including 400; a transport exception yields ok false, an absent status
code and the exception message as detail; and the fetcher is a total
function, so no exception propagates out of it. -/
theorem fetch_result_invariant :
    (∀ (w : World) (url : String) (sb : Bool),
      (fetch w url sb).ok = true ↔
        ∃ s, (fetch w url sb).status_code = some s ∧ 200 ≤ s ∧ s < 400) ∧
    (∀ (w : World) (url : String) (sb : Bool) (msg : String),
      fetchOutcome w url = .exc msg →
        fetch w url sb = ⟨url, none, false, some msg⟩) := by
  constructor
  · intro w url sb
    constructor
    · exact fetch_ok_range w url sb
    · rintro ⟨s, hs, h1, h2⟩
      exact fetch_range_ok w url sb s hs h1 h2
  · intro w url sb msg h
    exact fetch_exc_eq w url sb msg h

theorem fetch_result_invariant_witness :
    ((fetch [("u", FetchOutcome.exc "boom")] "u" true).ok = true ↔
      ∃ s, (fetch [("u", FetchOutcome.exc "boom")] "u" true).status_code = some s ∧
        200 ≤ s ∧ s < 400) ∧
    fetch [("u", FetchOutcome.exc "boom")] "u" true = ⟨"u", none, false, some "boom"⟩ :=
  ⟨fetch_result_invariant.1 [("u", FetchOutcome.exc "boom")] "u" true,
   fetch_result_invariant.2 [("u", FetchOutcome.exc "boom")] "u" true "boom" (by decide)⟩

/-! ### Step-level behavior of the link and image checks -/

/-- A fresh failing link is recorded once and classified by the
LinkedIn-999 test. -/
theorem checkLink_fresh_fail (w : World) (internal : List String)
    (current : String) (seen : List String) (st : CrawlState)
    (enq : List String) (link : String)
    (hscheme : (urlparse link).scheme = "http" ∨ (urlparse link).scheme = "https")
    (hnew : link ∉ st.checked_links.map Prod.fst)
    (hfail : (fetch w link false).ok = false) :
    (checkLink w internal current seen (st, enq) link).1 =
      (if (fetch w link false).status_code = some 999 ∧
          is_linkedin_domain (strLower (urlparse link).hostname) = true then
        { st with
            checked_links := st.checked_links ++ [(link, fetch w link false)]
            warnings := st.warnings ++ [linkWarnIssue current link (fetch w link false)] }
      else
        { st with
            checked_links := st.checked_links ++ [(link, fetch w link false)]
            issues := st.issues ++ [linkErrIssue current link (fetch w link false)] }) := by
  simp only [checkLink]
  rw [if_neg (not_not_intro hscheme), if_neg hnew,
    if_neg (show ¬ ((fetch w link false).ok = true) by simp [hfail])]

/-- C6: a checked link whose fetch fails produces exactly one
link_warning and no link_error precisely when its status code is 999 and
its host passes the LinkedIn suffix test, and exactly one link_error
(and no warning) otherwise; concretely, the crawl of a site whose only
link is a www.linkedin.com URL answering HTTP 999 records exactly one
link_warning and zero link_error. -/
theorem linkedin999_downgrade :
    (∀ (w : World) (internal : List String) (current : String)
       (seen : List String) (st : CrawlState) (enq : List String) (link : String),
      ((urlparse link).scheme = "http" ∨ (urlparse link).scheme = "https") →
      link ∉ st.checked_links.map Prod.fst →
      (fetch w link false).ok = false →
      (((fetch w link false).status_code = some 999 ∧
          is_linkedin_domain (strLower (urlparse link).hostname) = true →
        (checkLink w internal current seen (st, enq) link).1.warnings
            = st.warnings ++ [linkWarnIssue current link (fetch w link false)] ∧
        (checkLink w internal current seen (st, enq) link).1.issues = st.issues) ∧
      (¬ ((fetch w link false).status_code = some 999 ∧
          is_linkedin_domain (strLower (urlparse link).hostname) = true) →
        (checkLink w internal current seen (st, enq) link).1.issues
            = st.issues ++ [linkErrIssue current link (fetch w link false)] ∧
        (checkLink w internal current seen (st, enq) link).1.warnings = st.warnings))) ∧
    (crawlRun worldLinkedIn "http://me.test/" [] 5).map (fun st =>
        ((st.warnings.filter (fun i => i.kind == "link_warning")).length,
         (st.issues.filter (fun i => i.kind == "link_error")).length))
      = some (1, 0) := by
  constructor
  · intro w internal current seen st enq link hscheme hnew hfail
    have hc := checkLink_fresh_fail w internal current seen st enq link hscheme hnew hfail
    constructor
    · intro hcond
      rw [hc, if_pos hcond]
      exact ⟨rfl, rfl⟩
    · intro hcond
      rw [hc, if_neg hcond]
      exact ⟨rfl, rfl⟩
  · decide

theorem linkedin999_downgrade_witness :
    ((fetch worldLinkedIn "http://www.linkedin.com/in/x" false).status_code = some 999 ∧
        is_linkedin_domain (strLower (urlparse "http://www.linkedin.com/in/x").hostname) = true →
      (checkLink worldLinkedIn [] "http://me.test/" []
          (emptyState, []) "http://www.linkedin.com/in/x").1.warnings
          = emptyState.warnings ++ [linkWarnIssue "http://me.test/" "http://www.linkedin.com/in/x"
              (fetch worldLinkedIn "http://www.linkedin.com/in/x" false)] ∧
      (checkLink worldLinkedIn [] "http://me.test/" []
          (emptyState, []) "http://www.linkedin.com/in/x").1.issues = emptyState.issues) ∧
    (¬ ((fetch worldLinkedIn "http://www.linkedin.com/in/x" false).status_code = some 999 ∧
        is_linkedin_domain (strLower (urlparse "http://www.linkedin.com/in/x").hostname) = true) →
      (checkLink worldLinkedIn [] "http://me.test/" []
          (emptyState, []) "http://www.linkedin.com/in/x").1.issues
          = emptyState.issues ++ [linkErrIssue "http://me.test/" "http://www.linkedin.com/in/x"
              (fetch worldLinkedIn "http://www.linkedin.com/in/x" false)] ∧
      (checkLink worldLinkedIn [] "http://me.test/" []
          (emptyState, []) "http://www.linkedin.com/in/x").1.warnings = emptyState.warnings) :=
  linkedin999_downgrade.1 worldLinkedIn [] "http://me.test/" [] emptyState []
    "http://www.linkedin.com/in/x" (by decide) (by decide) (by decide)

/-- A fresh image answering a success status with a non-image content
type is recorded once and yields the status-less image_error. -/
theorem checkImage_fresh_wrong_type (w : World) (current : String)
    (st : CrawlState) (image : String)
    (hscheme : (urlparse image).scheme = "http" ∨ (urlparse image).scheme = "https")
    (hnew : image ∉ st.checked_images.map Prod.fst)
    (hok : (fetch w image false).ok = true)
    (hct : strStarts (pyStrOr (fetch w image false).detail "") "image/" = false) :
    checkImage w current st image =
      { st with
          checked_images := st.checked_images ++ [(image, fetch w image false)]
          issues := st.issues ++ [imageTypeErrIssue current image] } := by
  simp only [checkImage]
  rw [if_neg (not_not_intro hscheme), if_neg hnew,
    if_neg (show ¬ ¬ ((fetch w image false).ok = true) from not_not_intro hok),
    if_pos (show ¬ (strStarts (pyStrOr (fetch w image false).detail "") "image/" = true) by
      simp [hct])]

/-- A fresh image whose fetch fails is recorded once and yields the
image_error carrying the fetch's status code. -/
theorem checkImage_fresh_fail (w : World) (current : String)
    (st : CrawlState) (image : String)
    (hscheme : (urlparse image).scheme = "http" ∨ (urlparse image).scheme = "https")
    (hnew : image ∉ st.checked_images.map Prod.fst)
    (hfail : (fetch w image false).ok = false) :
    checkImage w current st image =
      { st with
          checked_images := st.checked_images ++ [(image, fetch w image false)]
          issues := st.issues ++ [imageLoadErrIssue current image (fetch w image false)] } := by
  simp only [checkImage]
  rw [if_neg (not_not_intro hscheme), if_neg hnew,
    if_pos (show ¬ ((fetch w image false).ok = true) by simp [hfail])]

/-- C7: a checked image whose fetch succeeds with a Content-Type that
does not start with image/ is recorded exactly once in checked_images
and yields exactly one image_error with the wrong-content-type message. -/
theorem image_wrong_content_type_error (w : World) (current : String)
    (st : CrawlState) (image : String)
    (hscheme : (urlparse image).scheme = "http" ∨ (urlparse image).scheme = "https")
    (hnew : image ∉ st.checked_images.map Prod.fst)
    (hok : (fetch w image false).ok = true)
    (hct : strStarts (pyStrOr (fetch w image false).detail "") "image/" = false) :
    checkImage w current st image =
      { st with
          checked_images := st.checked_images ++ [(image, fetch w image false)]
          issues := st.issues ++ [imageTypeErrIssue current image] } :=
  checkImage_fresh_wrong_type w current st image hscheme hnew hok hct

theorem image_wrong_content_type_error_witness :
    checkImage worldImageWrongType "http://b.test/" emptyState "http://b.test/logo.png" =
      { emptyState with
          checked_images := emptyState.checked_images ++
            [("http://b.test/logo.png", fetch worldImageWrongType "http://b.test/logo.png" false)]
          issues := emptyState.issues ++
            [imageTypeErrIssue "http://b.test/" "http://b.test/logo.png"] } :=
  image_wrong_content_type_error worldImageWrongType "http://b.test/" emptyState
    "http://b.test/logo.png" (by decide) (by decide) (by decide) (by decide)

/-- C10: the image_error emitted for a wrong content type carries no
status code even though the fetch produced a status code in the success
range, while the image_error emitted for a failed image fetch carries
the fetch's status code. -/
theorem image_type_error_status_absent :
    (∀ (w : World) (current : String) (st : CrawlState) (image : String),
      ((urlparse image).scheme = "http" ∨ (urlparse image).scheme = "https") →
      image ∉ st.checked_images.map Prod.fst →
      (fetch w image false).ok = true →
      strStarts (pyStrOr (fetch w image false).detail "") "image/" = false →
      (checkImage w current st image).issues
          = st.issues ++ [imageTypeErrIssue current image] ∧
      (imageTypeErrIssue current image).status_code = none ∧
      ∃ s, (fetch w image false).status_code = some s ∧ 200 ≤ s ∧ s < 400) ∧
    (∀ (w : World) (current : String) (st : CrawlState) (image : String),
      ((urlparse image).scheme = "http" ∨ (urlparse image).scheme = "https") →
      image ∉ st.checked_images.map Prod.fst →
      (fetch w image false).ok = false →
      (checkImage w current st image).issues
          = st.issues ++ [imageLoadErrIssue current image (fetch w image false)] ∧
      (imageLoadErrIssue current image (fetch w image false)).status_code
          = (fetch w image false).status_code) := by
  constructor
  · intro w current st image hscheme hnew hok hct
    refine ⟨?_, rfl, fetch_ok_range w image false hok⟩
    rw [checkImage_fresh_wrong_type w current st image hscheme hnew hok hct]
  · intro w current st image hscheme hnew hfail
    refine ⟨?_, rfl⟩
    rw [checkImage_fresh_fail w current st image hscheme hnew hfail]

theorem image_type_error_status_absent_witness :
    ((checkImage worldImageWrongType "http://b.test/" emptyState "http://b.test/logo.png").issues
        = emptyState.issues ++ [imageTypeErrIssue "http://b.test/" "http://b.test/logo.png"] ∧
      (imageTypeErrIssue "http://b.test/" "http://b.test/logo.png").status_code = none ∧
      ∃ s, (fetch worldImageWrongType "http://b.test/logo.png" false).status_code = some s ∧
        200 ≤ s ∧ s < 400) ∧
    ((checkImage worldImageMissing "http://p.test/" emptyState "http://b.test/x.png").issues
        = emptyState.issues ++ [imageLoadErrIssue "http://p.test/" "http://b.test/x.png"
            (fetch worldImageMissing "http://b.test/x.png" false)] ∧
      (imageLoadErrIssue "http://p.test/" "http://b.test/x.png"
          (fetch worldImageMissing "http://b.test/x.png" false)).status_code
        = (fetch worldImageMissing "http://b.test/x.png" false).status_code) :=
  ⟨image_type_error_status_absent.1 worldImageWrongType "http://b.test/" emptyState
      "http://b.test/logo.png" (by decide) (by decide) (by decide) (by decide),
   image_type_error_status_absent.2 worldImageMissing "http://p.test/" emptyState
      "http://b.test/x.png" (by decide) (by decide) (by decide)⟩

/-! ### The warning conditional at the end of crawl (C1) -/

/-- C1 counterexample: on a site with one broken link and one
LinkedIn-999 link, the run records a link_error (so the issue list is
non-empty) yet the returned summary's warning list is NOT empty — the
source keeps the warnings exactly when link errors are present. -/
theorem warning_suppression_counterexample :
    (crawl worldErrAndWarn "http://site.test/" [] 10).map (fun s =>
        (s.issues.any (fun i => i.kind == "link_error"), s.warnings.isEmpty))
      = some (true, false) := by decide

/-- C1 amended: the returned warning list equals the recorded warnings
when at least one link_error issue was recorded, and is empty when no
link_error was recorded — the reverse of the suppression the claim
describes. -/
theorem warnings_reported_only_with_link_errors (w : World) (base : String)
    (extra : List String) (fuel : Nat) (st : CrawlState)
    (h : crawlRun w base extra fuel = some st) :
    crawl w base extra fuel = some (mkSummary (normalize_url base) st) ∧
    (mkSummary (normalize_url base) st).warnings =
      (if st.issues.any (fun i => i.kind == "link_error") then st.warnings else []) := by
  constructor
  · rw [crawl, h]
    rfl
  · rfl

theorem warnings_reported_only_with_link_errors_witness :
    crawl worldErrAndWarn "http://site.test/" [] 10 =
      some (mkSummary (normalize_url "http://site.test/")
        ((crawlRun worldErrAndWarn "http://site.test/" [] 10).getD emptyState)) ∧
    (mkSummary (normalize_url "http://site.test/")
        ((crawlRun worldErrAndWarn "http://site.test/" [] 10).getD emptyState)).warnings =
      (if ((crawlRun worldErrAndWarn "http://site.test/" [] 10).getD emptyState).issues.any
          (fun i => i.kind == "link_error") then
        ((crawlRun worldErrAndWarn "http://site.test/" [] 10).getD emptyState).warnings
       else []) :=
  warnings_reported_only_with_link_errors worldErrAndWarn "http://site.test/" [] 10
    ((crawlRun worldErrAndWarn "http://site.test/" [] 10).getD emptyState) (by decide)

/-! ### The seen set and the frontier (C3) -/

/-- C3 counterexample: after the first step of a crawl of worldDiamond
the URL of page a is on the frontier but not in seen (so seen does not
contain every enqueued URL), and after three steps the frontier holds
the URL of page c twice (a URL already enqueued was enqueued again). -/
theorem seen_tracks_dequeues_counterexample :
    ("http://s.test/a" ∈ (crawlStep worldDiamond (crawlInternal "http://s.test/" [])
        ⟨[normalize_url "http://s.test/"], [], emptyState⟩).frontier ∧
     "http://s.test/a" ∉ (crawlStep worldDiamond (crawlInternal "http://s.test/" [])
        ⟨[normalize_url "http://s.test/"], [], emptyState⟩).seen) ∧
    ¬ (crawlStep worldDiamond (crawlInternal "http://s.test/" [])
        (crawlStep worldDiamond (crawlInternal "http://s.test/" [])
          (crawlStep worldDiamond (crawlInternal "http://s.test/" [])
            ⟨[normalize_url "http://s.test/"], [], emptyState⟩))).frontier.Nodup := by
  decide

/-- C3 amended: seen records the URLs that have been dequeued, not the
URLs that have been enqueued: dequeuing a URL already in seen skips it
and changes nothing else, and dequeuing a new URL adds it to seen; the
frontier may therefore transiently hold duplicate entries, each URL
still being processed at most once. -/
theorem seen_records_dequeued_urls :
    (∀ (w : World) (internal : List String) (s : LoopState) (current : String)
       (rest : List String), s.frontier = current :: rest → current ∈ s.seen →
      crawlStep w internal s = ⟨rest, s.seen, s.st⟩) ∧
    (∀ (w : World) (internal : List String) (s : LoopState) (current : String)
       (rest : List String), s.frontier = current :: rest → current ∉ s.seen →
      (crawlStep w internal s).seen = current :: s.seen) := by
  constructor
  · intro w internal s current rest hf hmem
    simp only [crawlStep, hf]
    rw [if_pos hmem]
  · intro w internal s current rest hf hmem
    simp only [crawlStep, hf]
    rw [if_neg hmem]
    split <;> rfl

theorem seen_records_dequeued_urls_witness :
    crawlStep [] [] ⟨["u"], ["u"], emptyState⟩ = ⟨[], ["u"], emptyState⟩ ∧
    (crawlStep [] [] ⟨["v"], [], emptyState⟩).seen = ["v"] :=
  ⟨seen_records_dequeued_urls.1 [] [] ⟨["u"], ["u"], emptyState⟩ "u" [] rfl (by decide),
   seen_records_dequeued_urls.2 [] [] ⟨["v"], [], emptyState⟩ "v" [] rfl (by decide)⟩

/-! ### Preservation lemmas for the per-link and per-image bodies -/

theorem checkLink_visited (w : World) (internal : List String) (current : String)
    (seen : List String) (acc : CrawlState × List String) (link : String) :
    (checkLink w internal current seen acc link).1.visited_pages = acc.1.visited_pages := by
  obtain ⟨st, enq⟩ := acc
  simp only [checkLink]
  repeat' split
  all_goals rfl

theorem checkLink_images (w : World) (internal : List String) (current : String)
    (seen : List String) (acc : CrawlState × List String) (link : String) :
    (checkLink w internal current seen acc link).1.checked_images = acc.1.checked_images := by
  obtain ⟨st, enq⟩ := acc
  simp only [checkLink]
  repeat' split
  all_goals rfl

theorem checkLink_links_nodup (w : World) (internal : List String) (current : String)
    (seen : List String) (acc : CrawlState × List String) (link : String)
    (h : (acc.1.checked_links.map Prod.fst).Nodup) :
    ((checkLink w internal current seen acc link).1.checked_links.map Prod.fst).Nodup := by
  obtain ⟨st, enq⟩ := acc
  simp only [checkLink]
  split
  · exact h
  · split
    case isTrue hmem => exact h
    case isFalse hmem =>
      have key : ((st.checked_links ++ [(link, fetch w link false)]).map Prod.fst).Nodup := by
        rw [List.map_append]
        simp only [List.nodup_append, List.map_cons, List.map_nil]
        refine ⟨h, List.nodup_singleton _, ?_⟩
        intro a ha hb
        simp at hb
        subst hb
        exact hmem ha
      repeat' split
      all_goals exact key

theorem checkImage_visited (w : World) (current : String) (st : CrawlState)
    (image : String) :
    (checkImage w current st image).visited_pages = st.visited_pages := by
  simp only [checkImage]
  repeat' split
  all_goals rfl

theorem checkImage_links (w : World) (current : String) (st : CrawlState)
    (image : String) :
    (checkImage w current st image).checked_links = st.checked_links := by
  simp only [checkImage]
  repeat' split
  all_goals rfl

theorem checkImage_images_nodup (w : World) (current : String) (st : CrawlState)
    (image : String) (h : (st.checked_images.map Prod.fst).Nodup) :
    ((checkImage w current st image).checked_images.map Prod.fst).Nodup := by
  simp only [checkImage]
  split
  · exact h
  · split
    case isTrue hmem => exact h
    case isFalse hmem =>
      have key : ((st.checked_images ++ [(image, fetch w image false)]).map Prod.fst).Nodup := by
        rw [List.map_append]
        simp only [List.nodup_append, List.map_cons, List.map_nil]
        refine ⟨h, List.nodup_singleton _, ?_⟩
        intro a ha hb
        simp at hb
        subst hb
        exact hmem ha
      repeat' split
      all_goals exact key

/-- Each link processed appends at most one URL to the frontier batch. -/
theorem checkLink_enq_length (w : World) (internal : List String) (current : String)
    (seen : List String) (acc : CrawlState × List String) (link : String) :
    (checkLink w internal current seen acc link).2.length ≤ acc.2.length + 1 := by
  obtain ⟨st, enq⟩ := acc
  simp only [checkLink]
  repeat' split
  all_goals simp

/-- A URL in the frontier batch after one link was already there or
passed the internal-domain/not-seen guard. -/
theorem checkLink_enq_mem (w : World) (internal : List String) (current : String)
    (seen : List String) (acc : CrawlState × List String) (link : String)
    (u : String) (hu : u ∈ (checkLink w internal current seen acc link).2) :
    u ∈ acc.2 ∨ (strLower (urlparse u).hostname ∈ internal ∧ u ∉ seen) := by
  obtain ⟨st, enq⟩ := acc
  revert hu
  simp only [checkLink]
  split
  · exact fun hu => Or.inl hu
  · dsimp only
    split
    case isTrue hguard =>
      intro hu
      rcases List.mem_append.mp hu with h | h
      · exact Or.inl h
      · simp at h
        subst h
        exact Or.inr hguard
    case isFalse hguard => exact fun hu => Or.inl hu

/-! ### Fold versions over a page's links and images -/

theorem foldl_checkLink_visited (w : World) (internal : List String) (current : String)
    (seen : List String) (links : List String) :
    ∀ acc, ((links.foldl (checkLink w internal current seen) acc).1.visited_pages
      = acc.1.visited_pages) := by
  induction links with
  | nil => intro acc; rfl
  | cons l ls ih =>
    intro acc
    rw [List.foldl_cons, ih, checkLink_visited]

theorem foldl_checkLink_images (w : World) (internal : List String) (current : String)
    (seen : List String) (links : List String) :
    ∀ acc, ((links.foldl (checkLink w internal current seen) acc).1.checked_images
      = acc.1.checked_images) := by
  induction links with
  | nil => intro acc; rfl
  | cons l ls ih =>
    intro acc
    rw [List.foldl_cons, ih, checkLink_images]

theorem foldl_checkLink_links_nodup (w : World) (internal : List String)
    (current : String) (seen : List String) (links : List String) :
    ∀ acc, (acc.1.checked_links.map Prod.fst).Nodup →
      ((links.foldl (checkLink w internal current seen) acc).1.checked_links.map Prod.fst).Nodup := by
  induction links with
  | nil => intro acc h; exact h
  | cons l ls ih =>
    intro acc h
    rw [List.foldl_cons]
    exact ih _ (checkLink_links_nodup w internal current seen acc l h)

theorem foldl_checkLink_enq_length (w : World) (internal : List String)
    (current : String) (seen : List String) (links : List String) :
    ∀ acc, (links.foldl (checkLink w internal current seen) acc).2.length
      ≤ acc.2.length + links.length := by
  induction links with
  | nil => intro acc; simp
  | cons l ls ih =>
    intro acc
    rw [List.foldl_cons]
    have h1 := ih (checkLink w internal current seen acc l)
    have h2 := checkLink_enq_length w internal current seen acc l
    simp only [List.length_cons]
    omega

theorem foldl_checkLink_enq_mem (w : World) (internal : List String)
    (current : String) (seen : List String) (links : List String) :
    ∀ acc u, u ∈ (links.foldl (checkLink w internal current seen) acc).2 →
      u ∈ acc.2 ∨ (strLower (urlparse u).hostname ∈ internal ∧ u ∉ seen) := by
  induction links with
  | nil => intro acc u hu; exact Or.inl hu
  | cons l ls ih =>
    intro acc u hu
    rw [List.foldl_cons] at hu
    rcases ih _ u hu with h | h
    · exact checkLink_enq_mem w internal current seen acc l u h
    · exact Or.inr h

theorem foldl_checkImage_visited (w : World) (current : String) (images : List String) :
    ∀ st, ((images.foldl (checkImage w current) st).visited_pages = st.visited_pages) := by
  induction images with
  | nil => intro st; rfl
  | cons i im ih =>
    intro st
    rw [List.foldl_cons, ih, checkImage_visited]

theorem foldl_checkImage_links (w : World) (current : String) (images : List String) :
    ∀ st, ((images.foldl (checkImage w current) st).checked_links = st.checked_links) := by
  induction images with
  | nil => intro st; rfl
  | cons i im ih =>
    intro st
    rw [List.foldl_cons, ih, checkImage_links]

theorem foldl_checkImage_images_nodup (w : World) (current : String)
    (images : List String) :
    ∀ st, (st.checked_images.map Prod.fst).Nodup →
      ((images.foldl (checkImage w current) st).checked_images.map Prod.fst).Nodup := by
  induction images with
  | nil => intro st h; exact h
  | cons i im ih =>
    intro st h
    rw [List.foldl_cons]
    exact ih _ (checkImage_images_nodup w current st i h)

theorem foldl_checkLink_images_nodup (w : World) (internal : List String)
    (current : String) (seen : List String) (links : List String)
    (acc : CrawlState × List String)
    (h : (acc.1.checked_images.map Prod.fst).Nodup) :
    ((links.foldl (checkLink w internal current seen) acc).1.checked_images.map Prod.fst).Nodup := by
  rw [foldl_checkLink_images]
  exact h

/-! ### visitPage lemmas -/

theorem visitPage_visited (w : World) (internal : List String) (current : String)
    (seen : List String) (st : CrawlState) :
    (visitPage w internal current seen st).1.visited_pages = st.visited_pages := by
  simp only [visitPage]
  rw [foldl_checkImage_visited, foldl_checkLink_visited]

theorem visitPage_links_nodup (w : World) (internal : List String) (current : String)
    (seen : List String) (st : CrawlState)
    (h : (st.checked_links.map Prod.fst).Nodup) :
    ((visitPage w internal current seen st).1.checked_links.map Prod.fst).Nodup := by
  simp only [visitPage]
  rw [foldl_checkImage_links]
  exact foldl_checkLink_links_nodup w internal current seen _ (st, []) h

theorem visitPage_images_nodup (w : World) (internal : List String) (current : String)
    (seen : List String) (st : CrawlState)
    (h : (st.checked_images.map Prod.fst).Nodup) :
    ((visitPage w internal current seen st).1.checked_images.map Prod.fst).Nodup := by
  simp only [visitPage]
  exact foldl_checkImage_images_nodup w current _ _
    (foldl_checkLink_images_nodup w internal current seen _ (st, []) h)

theorem visitPage_enq_length (w : World) (internal : List String) (current : String)
    (seen : List String) (st : CrawlState) :
    (visitPage w internal current seen st).2.length
      ≤ (extract_links (pageHrefs w current)).length := by
  simp only [visitPage]
  have := foldl_checkLink_enq_length w internal current seen
    (extract_links (pageHrefs w current)) (st, [])
  simpa using this

theorem visitPage_enq_mem (w : World) (internal : List String) (current : String)
    (seen : List String) (st : CrawlState) (u : String)
    (hu : u ∈ (visitPage w internal current seen st).2) :
    strLower (urlparse u).hostname ∈ internal ∧ u ∉ seen := by
  simp only [visitPage] at hu
  rcases foldl_checkLink_enq_mem w internal current seen
      (extract_links (pageHrefs w current)) (st, []) u hu with h | h
  · simp at h
  · exact h

/-! ### One-step characterization of the crawl loop -/

theorem crawlStep_cons (w : World) (internal : List String) (current : String)
    (rest seen : List String) (st : CrawlState) :
    crawlStep w internal ⟨current :: rest, seen, st⟩ =
      if current ∈ seen then ⟨rest, seen, st⟩
      else if ¬ (fetch w current true).ok then
        ⟨rest, current :: seen,
          { st with
              visited_pages := st.visited_pages ++ [(current, fetch w current true)]
              issues := st.issues ++ [pageErrIssue current (fetch w current true)] }⟩
      else
        ⟨rest ++ (visitPage w internal current (current :: seen)
            { st with visited_pages := st.visited_pages ++ [(current, fetch w current true)] }).2,
         current :: seen,
         (visitPage w internal current (current :: seen)
            { st with visited_pages := st.visited_pages ++ [(current, fetch w current true)] }).1⟩ := by
  rfl

/-- The collections invariant threaded through the loop for the
no-re-visit property: the three key lists are duplicate-free and every
visited key has been recorded in seen. -/
def StateOK (s : LoopState) : Prop :=
  (s.st.visited_pages.map Prod.fst).Nodup ∧
  (∀ k ∈ s.st.visited_pages.map Prod.fst, k ∈ s.seen) ∧
  (s.st.checked_links.map Prod.fst).Nodup ∧
  (s.st.checked_images.map Prod.fst).Nodup

theorem crawlStep_stateOK (w : World) (internal : List String) (s : LoopState)
    (h : StateOK s) : StateOK (crawlStep w internal s) := by
  obtain ⟨frontier, seen, st⟩ := s
  cases frontier with
  | nil => exact h
  | cons current rest =>
    obtain ⟨h1, h2, h3, h4⟩ := h
    rw [crawlStep_cons]
    by_cases hmem : current ∈ seen
    · rw [if_pos hmem]
      exact ⟨h1, h2, h3, h4⟩
    · rw [if_neg hmem]
      have hv1 : ((st.visited_pages ++ [(current, fetch w current true)]).map Prod.fst).Nodup := by
        rw [List.map_append]
        simp only [List.nodup_append, List.map_cons, List.map_nil]
        refine ⟨h1, List.nodup_singleton _, ?_⟩
        intro a ha hb
        simp at hb
        subst hb
        exact hmem (h2 a ha)
      have hv2 : ∀ k ∈ (st.visited_pages ++ [(current, fetch w current true)]).map Prod.fst,
          k ∈ current :: seen := by
        intro k hk
        rw [List.map_append] at hk
        rcases List.mem_append.mp hk with hk | hk
        · exact List.mem_cons_of_mem _ (h2 k hk)
        · simp at hk
          subst hk
          exact List.mem_cons_self _ _
      by_cases hok : (fetch w current true).ok = true
      · rw [if_neg (not_not_intro hok)]
        refine ⟨?_, ?_, ?_, ?_⟩
        · rw [visitPage_visited]
          exact hv1
        · intro k hk
          rw [visitPage_visited] at hk
          exact hv2 k hk
        · exact visitPage_links_nodup _ _ _ _ _ h3
        · exact visitPage_images_nodup _ _ _ _ _ h4
      · rw [if_pos hok]
        exact ⟨hv1, hv2, h3, h4⟩

theorem crawlLoop_stateOK (w : World) (internal : List String) :
    ∀ (fuel : Nat) (s : LoopState) (st : CrawlState), StateOK s →
      crawlLoop w internal fuel s = some st →
      (st.visited_pages.map Prod.fst).Nodup ∧
      (st.checked_links.map Prod.fst).Nodup ∧
      (st.checked_images.map Prod.fst).Nodup := by
  intro fuel
  induction fuel with
  | zero =>
    intro s st h hloop
    obtain ⟨frontier, seen, stt⟩ := s
    cases frontier with
    | nil =>
      simp only [crawlLoop] at hloop
      cases hloop
      exact ⟨h.1, h.2.2.1, h.2.2.2⟩
    | cons c r => simp [crawlLoop] at hloop
  | succ n ih =>
    intro s st h hloop
    obtain ⟨frontier, seen, stt⟩ := s
    cases frontier with
    | nil =>
      simp only [crawlLoop] at hloop
      cases hloop
      exact ⟨h.1, h.2.2.1, h.2.2.2⟩
    | cons c r =>
      have hstep : crawlLoop w internal (n + 1) ⟨c :: r, seen, stt⟩
          = crawlLoop w internal n (crawlStep w internal ⟨c :: r, seen, stt⟩) := rfl
      rw [hstep] at hloop
      exact ih _ st (crawlStep_stateOK w internal _ ⟨h.1, h.2.1, h.2.2.1, h.2.2.2⟩) hloop

/-- C2: in every completed crawl run each distinct normalized URL appears
at most once as a key of visited_pages, checked_links and checked_images
respectively (the keys are duplicate-free), however many referring pages
cite it; since every recorded entry corresponds to exactly one fetch of
its key in that role, each URL is fetched at most once per role. -/
theorem distinct_url_checked_once (w : World) (base : String) (extra : List String)
    (fuel : Nat) (st : CrawlState) (h : crawlRun w base extra fuel = some st) :
    (st.visited_pages.map Prod.fst).Nodup ∧
    (st.checked_links.map Prod.fst).Nodup ∧
    (st.checked_images.map Prod.fst).Nodup := by
  refine crawlLoop_stateOK w _ fuel _ st ?_ h
  refine ⟨List.nodup_nil, ?_, List.nodup_nil, List.nodup_nil⟩
  intro k hk
  simp at hk

theorem distinct_url_checked_once_witness :
    (((crawlRun worldDiamond "http://s.test/" [] 20).getD emptyState).visited_pages.map
        Prod.fst).Nodup ∧
    (((crawlRun worldDiamond "http://s.test/" [] 20).getD emptyState).checked_links.map
        Prod.fst).Nodup ∧
    (((crawlRun worldDiamond "http://s.test/" [] 20).getD emptyState).checked_images.map
        Prod.fst).Nodup :=
  distinct_url_checked_once worldDiamond "http://s.test/" [] 20
    ((crawlRun worldDiamond "http://s.test/" [] 20).getD emptyState) (by decide)

/-! ### External links never expand the frontier (C5) -/

/-- A URL allowed to be visited: the base URL itself or a URL whose host
is in the internal domain set. -/
def HostOK (internal : List String) (base : String) (u : String) : Prop :=
  u = base ∨ strLower (urlparse u).hostname ∈ internal

/-- The frontier invariant: every frontier entry and every visited key
is the base URL or has an internal host. -/
def FrontierOK (internal : List String) (base : String) (s : LoopState) : Prop :=
  (∀ u ∈ s.frontier, HostOK internal base u) ∧
  (∀ u ∈ s.st.visited_pages.map Prod.fst, HostOK internal base u)

theorem crawlStep_frontierOK (w : World) (internal : List String) (base : String)
    (s : LoopState) (h : FrontierOK internal base s) :
    FrontierOK internal base (crawlStep w internal s) := by
  obtain ⟨frontier, seen, st⟩ := s
  cases frontier with
  | nil => exact h
  | cons current rest =>
    obtain ⟨hf, hv⟩ := h
    have hcur : HostOK internal base current := hf current (List.mem_cons_self _ _)
    have hrest : ∀ u ∈ rest, HostOK internal base u :=
      fun u hu => hf u (List.mem_cons_of_mem _ hu)
    rw [crawlStep_cons]
    by_cases hmem : current ∈ seen
    · rw [if_pos hmem]
      exact ⟨hrest, hv⟩
    · rw [if_neg hmem]
      have hv' : ∀ u ∈ (st.visited_pages ++ [(current, fetch w current true)]).map Prod.fst,
          HostOK internal base u := by
        intro u hu
        rw [List.map_append] at hu
        rcases List.mem_append.mp hu with hu | hu
        · exact hv u hu
        · simp at hu
          subst hu
          exact hcur
      by_cases hok : (fetch w current true).ok = true
      · rw [if_neg (not_not_intro hok)]
        refine ⟨?_, ?_⟩
        · intro u hu
          rcases List.mem_append.mp hu with hu | hu
          · exact hrest u hu
          · exact Or.inr (visitPage_enq_mem w internal current _ _ u hu).1
        · intro u hu
          rw [visitPage_visited] at hu
          exact hv' u hu
      · rw [if_pos hok]
        exact ⟨hrest, hv'⟩

theorem crawlLoop_frontierOK (w : World) (internal : List String) (base : String) :
    ∀ (fuel : Nat) (s : LoopState) (st : CrawlState),
      FrontierOK internal base s → crawlLoop w internal fuel s = some st →
      ∀ u ∈ st.visited_pages.map Prod.fst, HostOK internal base u := by
  intro fuel
  induction fuel with
  | zero =>
    intro s st h hloop
    obtain ⟨frontier, seen, stt⟩ := s
    cases frontier with
    | nil =>
      simp only [crawlLoop] at hloop
      cases hloop
      exact h.2
    | cons c r => simp [crawlLoop] at hloop
  | succ n ih =>
    intro s st h hloop
    obtain ⟨frontier, seen, stt⟩ := s
    cases frontier with
    | nil =>
      simp only [crawlLoop] at hloop
      cases hloop
      exact h.2
    | cons c r =>
      have hstep : crawlLoop w internal (n + 1) ⟨c :: r, seen, stt⟩
          = crawlLoop w internal n (crawlStep w internal ⟨c :: r, seen, stt⟩) := rfl
      rw [hstep] at hloop
      exact ih _ st (crawlStep_frontierOK w internal base _ ⟨h.1, h.2⟩) hloop

/-- C5: a step of the crawl loop only ever adds URLs whose host is a
member of the internal domain set (and that are not yet seen) to the
frontier, and consequently every visited page of a completed run is
either the base URL itself or has an internal host — a link to an
external host is checked but never becomes a visited page. -/
theorem external_links_never_expand_frontier :
    (∀ (w : World) (internal : List String) (s : LoopState) (u : String),
      u ∈ (crawlStep w internal s).frontier →
      u ∈ s.frontier ∨ (strLower (urlparse u).hostname ∈ internal ∧ u ∉ s.seen)) ∧
    (∀ (w : World) (base : String) (extra : List String) (fuel : Nat) (st : CrawlState),
      crawlRun w base extra fuel = some st →
      ∀ u ∈ st.visited_pages.map Prod.fst,
        u = normalize_url base ∨
          strLower (urlparse u).hostname ∈ crawlInternal base extra) := by
  constructor
  · intro w internal s u hu
    obtain ⟨frontier, seen, st⟩ := s
    cases frontier with
    | nil => exact Or.inl hu
    | cons current rest =>
      rw [crawlStep_cons] at hu
      by_cases hmem : current ∈ seen
      · rw [if_pos hmem] at hu
        exact Or.inl (List.mem_cons_of_mem _ hu)
      · rw [if_neg hmem] at hu
        by_cases hok : (fetch w current true).ok = true
        · rw [if_neg (not_not_intro hok)] at hu
          rcases List.mem_append.mp hu with hu | hu
          · exact Or.inl (List.mem_cons_of_mem _ hu)
          · have := visitPage_enq_mem w internal current _ _ u hu
            exact Or.inr ⟨this.1, fun hs => this.2 (List.mem_cons_of_mem _ hs)⟩
        · rw [if_pos hok] at hu
          exact Or.inl (List.mem_cons_of_mem _ hu)
  · intro w base extra fuel st h u hu
    exact crawlLoop_frontierOK w (crawlInternal base extra) (normalize_url base)
      fuel _ st ⟨by intro v hv; simp at hv; subst hv; exact Or.inl rfl,
        by intro v hv; simp at hv⟩ h u hu

theorem external_links_never_expand_frontier_witness :
    ("http://s.test/a" ∈
        (⟨[normalize_url "http://s.test/"], [], emptyState⟩ : LoopState).frontier ∨
      (strLower (urlparse "http://s.test/a").hostname ∈ crawlInternal "http://s.test/" [] ∧
        "http://s.test/a" ∉
          (⟨[normalize_url "http://s.test/"], [], emptyState⟩ : LoopState).seen)) ∧
    ("http://s.test/c" = normalize_url "http://s.test/" ∨
      strLower (urlparse "http://s.test/c").hostname ∈ crawlInternal "http://s.test/" []) :=
  ⟨external_links_never_expand_frontier.1 worldDiamond (crawlInternal "http://s.test/" [])
      ⟨[normalize_url "http://s.test/"], [], emptyState⟩ "http://s.test/a" (by decide),
   external_links_never_expand_frontier.2 worldDiamond "http://s.test/" [] 20
      ((crawlRun worldDiamond "http://s.test/" [] 20).getD emptyState) (by decide)
      "http://s.test/c" (by decide)⟩

/-! ### Termination of the crawl loop (C8) -/

/-- The number of links the crawl loop extracts from a page outcome. -/
def linksLenOf : FetchOutcome → Nat
  | .exc _ => 0
  | .resp _ _ _ hrefs _ => (extract_links hrefs).length

/-- The remaining link budget of the world relative to seen: the total
number of extracted links over world entries whose URL is not yet seen.
Together with the frontier length this is a decreasing measure for the
loop. -/
def credit (w : World) (seen : List String) : Nat :=
  match w with
  | [] => 0
  | p :: rest => (if p.1 ∈ seen then 0 else linksLenOf p.2) + credit rest seen

theorem credit_mono_cons (w : World) (x : String) (seen : List String) :
    credit w (x :: seen) ≤ credit w seen := by
  induction w with
  | nil => exact Nat.le_refl 0
  | cons p rest ih =>
    simp only [credit]
    refine Nat.add_le_add ?_ ih
    by_cases hp : p.1 ∈ seen
    · rw [if_pos hp, if_pos (List.mem_cons_of_mem _ hp)]
    · rw [if_neg hp]
      split <;> simp

theorem credit_find (w : World) (current : String) (seen : List String)
    (q : String × FetchOutcome) (hq : w.find? (fun p => p.1 = current) = some q)
    (hmem : current ∉ seen) :
    linksLenOf q.2 + credit w (current :: seen) ≤ credit w seen := by
  induction w with
  | nil => simp [List.find?] at hq
  | cons p rest ih =>
    by_cases hp : p.1 = current
    · have : (p :: rest).find? (fun r => r.1 = current) = some p := by
        simp [List.find?, hp]
      rw [this] at hq
      cases hq
      simp only [credit]
      rw [if_pos (by rw [hp]; exact List.mem_cons_self _ _),
        if_neg (by rw [hp]; exact hmem)]
      have := credit_mono_cons rest current seen
      omega
    · have : (p :: rest).find? (fun r => r.1 = current) = rest.find? (fun r => r.1 = current) := by
        simp [List.find?, hp]
      rw [this] at hq
      have hrec := ih hq
      simp only [credit]
      have hsame : (if p.1 ∈ current :: seen then 0 else linksLenOf p.2)
          = (if p.1 ∈ seen then 0 else linksLenOf p.2) := by
        by_cases hin : p.1 ∈ seen
        · rw [if_pos hin, if_pos (List.mem_cons_of_mem _ hin)]
        · rw [if_neg hin, if_neg (by
            intro hc
            rcases List.mem_cons.mp hc with hc | hc
            · exact hp hc
            · exact hin hc)]
      rw [hsame]
      omega

theorem fetch_ok_outcome (w : World) (current : String)
    (h : (fetch w current true).ok = true) :
    ∃ q, w.find? (fun p => p.1 = current) = some q ∧
      linksLenOf q.2 = (extract_links (pageHrefs w current)).length := by
  have hfo : fetchOutcome w current = (match w.find? (fun p => p.1 = current) with
      | some p => p.2
      | none => FetchOutcome.exc "connection error") := rfl
  cases hfind : w.find? (fun p => p.1 = current) with
  | none =>
    exfalso
    have hexc : fetchOutcome w current = .exc "connection error" := by rw [hfo, hfind]
    rw [fetch_exc_eq w current true _ hexc] at h
    simp at h
  | some q =>
    have hq : fetchOutcome w current = q.2 := by rw [hfo, hfind]
    cases hout : q.2 with
    | exc msg =>
      exfalso
      rw [fetch_exc_eq w current true msg (by rw [hq, hout])] at h
      simp at h
    | resp status body ct hrefs srcs =>
      refine ⟨q, rfl, ?_⟩
      have hph : pageHrefs w current = hrefs := by
        unfold pageHrefs
        rw [hq, hout]
      rw [hph, hout]
      rfl

theorem crawlLoop_enough_fuel (w : World) (internal : List String) :
    ∀ (fuel : Nat) (s : LoopState),
      s.frontier.length + credit w s.seen ≤ fuel →
      (crawlLoop w internal fuel s).isSome = true := by
  intro fuel
  induction fuel with
  | zero =>
    intro s h
    obtain ⟨frontier, seen, st⟩ := s
    cases frontier with
    | nil => rfl
    | cons c r => simp at h
  | succ n ih =>
    intro s h
    obtain ⟨frontier, seen, st⟩ := s
    cases frontier with
    | nil => rfl
    | cons current rest =>
      have hstep : crawlLoop w internal (n + 1) ⟨current :: rest, seen, st⟩
          = crawlLoop w internal n (crawlStep w internal ⟨current :: rest, seen, st⟩) := rfl
      rw [hstep]
      apply ih
      rw [crawlStep_cons]
      by_cases hmem : current ∈ seen
      · rw [if_pos hmem]
        simp only [List.length_cons] at h
        show rest.length + credit w seen ≤ n
        omega
      · rw [if_neg hmem]
        by_cases hok : (fetch w current true).ok = true
        · rw [if_neg (not_not_intro hok)]
          obtain ⟨q, hq, hlen⟩ := fetch_ok_outcome w current hok
          have hcred := credit_find w current seen q hq hmem
          have henq := visitPage_enq_length w internal current (current :: seen)
            { st with visited_pages := st.visited_pages ++ [(current, fetch w current true)] }
          simp only [List.length_cons] at h
          simp only [List.length_append]
          omega
        · rw [if_pos hok]
          have hmono := credit_mono_cons w current seen
          simp only [List.length_cons] at h
          show rest.length + credit w (current :: seen) ≤ n
          omega

/-- Fuel that always suffices: one dequeue for the seeded base URL plus
one dequeue for every link any page of the (finite) world can ever
contribute. -/
def fuelBound (w : World) : Nat := 1 + credit w []

/-- C8: a crawl of any world (a finite association list, so the set of
reachable internal URLs is finite) terminates: with fuel fuelBound w the
loop always finishes by frontier exhaustion, and crawl returns a
CrawlSummary. -/
theorem crawl_always_terminates (w : World) (base : String) (extra : List String) :
    (crawlRun w base extra (fuelBound w)).isSome = true ∧
    (crawl w base extra (fuelBound w)).isSome = true := by
  have h : (crawlRun w base extra (fuelBound w)).isSome = true := by
    apply crawlLoop_enough_fuel
    simp [fuelBound]
  refine ⟨h, ?_⟩
  obtain ⟨st, hst⟩ := Option.isSome_iff_exists.mp h
  rw [crawl, hst]
  rfl

/-! ### Fragment irrelevance of the normalizer (C9)

For a URL with an http or https scheme, appending a hash and a fragment
never changes any component the normalizer keeps: the appended tail is
cut away either at the netloc delimiter or at the fragment split, both
of which happen before the query split. -/

theorem lstripC0_append_hash (l m : List Char) :
    lstripC0 (l ++ '#' :: m) = lstripC0 l ++ '#' :: m := by
  induction l with
  | nil => simp [lstripC0]
  | cons c cs ih =>
    simp only [List.cons_append, lstripC0]
    split
    · exact ih
    · rfl

theorem removeCtl_append_hash (l m : List Char) :
    removeCtl (l ++ '#' :: m) = removeCtl l ++ '#' :: removeCtl m := by
  unfold removeCtl
  rw [List.filter_append]
  rfl

theorem cleanUrl_append_hash (l m : List Char) :
    cleanUrl (l ++ '#' :: m) = cleanUrl l ++ '#' :: removeCtl m := by
  unfold cleanUrl
  rw [lstripC0_append_hash, removeCtl_append_hash]

theorem splitAtFirst_append_of_some (c : Char) (l m a b : List Char)
    (h : splitAtFirst c l = some (a, b)) :
    splitAtFirst c (l ++ m) = some (a, b ++ m) := by
  induction l generalizing a with
  | nil => simp [splitAtFirst] at h
  | cons x xs ih =>
    rw [List.cons_append]
    simp only [splitAtFirst] at h ⊢
    by_cases hx : x = c
    · rw [if_pos hx] at h ⊢
      cases h
      rfl
    · rw [if_neg hx] at h ⊢
      cases hs : splitAtFirst c xs with
      | none => rw [hs] at h; cases h
      | some p =>
        obtain ⟨a', b'⟩ := p
        rw [hs] at h
        cases h
        rw [ih a' hs]


theorem splitAtFirst_append_of_none (c : Char) (l m : List Char)
    (h : splitAtFirst c l = none) :
    splitAtFirst c (l ++ c :: m) = some (l, m) := by
  induction l with
  | nil => simp [splitAtFirst]
  | cons x xs ih =>
    rw [List.cons_append]
    simp only [splitAtFirst] at h ⊢
    by_cases hx : x = c
    · rw [if_pos hx] at h
      cases h
    · rw [if_neg hx] at h ⊢
      cases hs : splitAtFirst c xs with
      | none => rw [ih hs]
      | some p => rw [hs] at h; cases h

theorem splitScheme_eq_of_parts (l post : List Char) (c0 : Char) (cs : List Char)
    (hsp : splitAtFirst ':' l = some (c0 :: cs, post))
    (hc : (c0.isAlpha && cs.all schemeChar) = true) :
    splitScheme l = ((c0 :: cs).map Char.toLower, post) := by
  unfold splitScheme
  rw [hsp]
  simp [hc]

theorem splitScheme_ne_nil_inv (l : List Char) (hs : (splitScheme l).1 ≠ []) :
    ∃ c0 cs post, splitAtFirst ':' l = some (c0 :: cs, post) ∧
      (c0.isAlpha && cs.all schemeChar) = true := by
  revert hs
  unfold splitScheme
  cases hsp : splitAtFirst ':' l with
  | none => intro hs; exact absurd rfl hs
  | some p =>
    obtain ⟨pre, post⟩ := p
    cases pre with
    | nil => intro hs; exact absurd rfl hs
    | cons c0 cs =>
      by_cases hc : (c0.isAlpha && cs.all schemeChar) = true
      · intro _
        exact ⟨c0, cs, post, rfl, hc⟩
      · intro hs
        refine absurd ?_ hs
        dsimp only
        rw [if_neg hc]

theorem splitScheme_append (l m : List Char) (hs : (splitScheme l).1 ≠ []) :
    splitScheme (l ++ m) = ((splitScheme l).1, (splitScheme l).2 ++ m) := by
  obtain ⟨c0, cs, post, hsp, hc⟩ := splitScheme_ne_nil_inv l hs
  have h1 := splitScheme_eq_of_parts l post c0 cs hsp hc
  have h2 := splitScheme_eq_of_parts (l ++ m) (post ++ m) c0 cs
    (splitAtFirst_append_of_some ':' l m (c0 :: cs) post hsp) hc
  rw [h1, h2]

theorem takeUntilDelims_append_hash (l m : List Char) :
    takeUntilDelims (l ++ '#' :: m)
      = ((takeUntilDelims l).1, (takeUntilDelims l).2 ++ '#' :: m) := by
  induction l with
  | nil => simp [takeUntilDelims]
  | cons c cs ih =>
    rw [List.cons_append]
    simp only [takeUntilDelims]
    split
    · rfl
    · rw [ih]

theorem splitNetloc_append_hash (l m : List Char) :
    splitNetloc (l ++ '#' :: m)
      = ((splitNetloc l).1, (splitNetloc l).2 ++ '#' :: m) := by
  match l with
  | [] =>
    cases m with
    | nil => rfl
    | cons m0 ms => rfl
  | [c] =>
    show splitNetloc (c :: '#' :: m) = _
    have hns : ¬ (c = '/' ∧ '#' = '/') := by
      rintro ⟨-, hh⟩
      exact absurd hh (by decide)
    simp only [splitNetloc]
    rw [if_neg hns]
    rfl
  | c1 :: c2 :: t =>
    show splitNetloc (c1 :: c2 :: (t ++ '#' :: m)) = _
    simp only [splitNetloc]
    split
    · rw [takeUntilDelims_append_hash]
    · rfl

theorem splitFragment_fst_append_hash (l m : List Char) :
    (splitFragment (l ++ '#' :: m)).1 = (splitFragment l).1 := by
  unfold splitFragment
  cases h : splitAtFirst '#' l with
  | none => rw [splitAtFirst_append_of_none '#' l m h]
  | some p =>
    obtain ⟨a, b⟩ := p
    rw [splitAtFirst_append_of_some '#' l ('#' :: m) a b h]

theorem splitClean_append_hash (l m : List Char) (hs : (splitClean l).scheme ≠ []) :
    (splitClean (l ++ '#' :: m)).scheme = (splitClean l).scheme ∧
    (splitClean (l ++ '#' :: m)).netloc = (splitClean l).netloc ∧
    (splitClean (l ++ '#' :: m)).path = (splitClean l).path ∧
    (splitClean (l ++ '#' :: m)).query = (splitClean l).query := by
  have hs' : (splitScheme l).1 ≠ [] := hs
  have h1 := splitScheme_append l ('#' :: m) hs'
  have h2 := splitNetloc_append_hash (splitScheme l).2 m
  refine ⟨?_, ?_, ?_, ?_⟩ <;>
    simp only [splitClean, h1, h2, splitFragment_fst_append_hash]

theorem urlsplitCore_append_hash (l m : List Char)
    (hs : (urlsplitCore l).scheme ≠ []) :
    (urlsplitCore (l ++ '#' :: m)).scheme = (urlsplitCore l).scheme ∧
    (urlsplitCore (l ++ '#' :: m)).netloc = (urlsplitCore l).netloc ∧
    (urlsplitCore (l ++ '#' :: m)).path = (urlsplitCore l).path ∧
    (urlsplitCore (l ++ '#' :: m)).query = (urlsplitCore l).query := by
  have hrw : urlsplitCore (l ++ '#' :: m) = splitClean (cleanUrl l ++ '#' :: removeCtl m) := by
    unfold urlsplitCore
    rw [cleanUrl_append_hash]
  rw [hrw]
  exact splitClean_append_hash (cleanUrl l) (removeCtl m) hs

theorem urlparseCore_append_hash (l m : List Char)
    (hs : (urlsplitCore l).scheme ≠ []) :
    (urlparseCore (l ++ '#' :: m)).scheme = (urlparseCore l).scheme ∧
    (urlparseCore (l ++ '#' :: m)).netloc = (urlparseCore l).netloc ∧
    (urlparseCore (l ++ '#' :: m)).path = (urlparseCore l).path ∧
    (urlparseCore (l ++ '#' :: m)).query = (urlparseCore l).query := by
  obtain ⟨e1, e2, e3, e4⟩ := urlsplitCore_append_hash l m hs
  simp only [urlparseCore]
  rw [e1, e2, e3, e4]
  split <;> exact ⟨rfl, rfl, rfl, rfl⟩

theorem urlparse_scheme_ne_empty (u : String)
    (h : (urlparse u).scheme = "http" ∨ (urlparse u).scheme = "https") :
    (urlsplitCore u.data).scheme ≠ [] := by
  intro hnil
  have hsch : (urlparse u).scheme = (urlparseCore u.data).scheme.asString := rfl
  have hps : (urlparseCore u.data).scheme = (urlsplitCore u.data).scheme := by
    simp only [urlparseCore]
    split <;> rfl
  rw [hsch, hps, hnil] at h
  rcases h with h | h <;> exact absurd h (by decide)

theorem urlparse_append_hash (u frag : String)
    (h : (urlparse u).scheme = "http" ∨ (urlparse u).scheme = "https") :
    (urlparse (u ++ "#" ++ frag)).scheme = (urlparse u).scheme ∧
    (urlparse (u ++ "#" ++ frag)).netloc = (urlparse u).netloc ∧
    (urlparse (u ++ "#" ++ frag)).path = (urlparse u).path ∧
    (urlparse (u ++ "#" ++ frag)).query = (urlparse u).query := by
  have hdata : (u ++ "#" ++ frag).data = u.data ++ '#' :: frag.data := by
    simp [String.data_append]
  obtain ⟨e1, e2, e3, e4⟩ :=
    urlparseCore_append_hash u.data frag.data (urlparse_scheme_ne_empty u h)
  simp only [urlparse]
  rw [hdata, e1, e2, e3, e4]
  exact ⟨rfl, rfl, rfl, rfl⟩

theorem string_ne_empty_of_data (s : String) (h : s.data ≠ []) : s ≠ "" := by
  intro he
  rw [he] at h
  exact h rfl

/-- C9 amended: for every URL whose parsed scheme is http or https,
appending a hash and any fragment does not change the normalized key. -/
theorem normalize_fragment_irrelevant (u frag : String)
    (h : (urlparse u).scheme = "http" ∨ (urlparse u).scheme = "https") :
    normalize_url (u ++ "#" ++ frag) = normalize_url u := by
  obtain ⟨e1, e2, e3, e4⟩ := urlparse_append_hash u frag h
  have hu : u ≠ "" := by
    intro he
    rw [he] at h
    rcases h with h | h <;> exact absurd h (by decide)
  have hufrag : u ++ "#" ++ frag ≠ "" := by
    apply string_ne_empty_of_data
    have : (u ++ "#" ++ frag).data = u.data ++ '#' :: frag.data := by
      simp [String.data_append]
    rw [this]
    simp
  unfold normalize_url
  rw [if_neg hufrag, if_neg hu,
    if_neg (show ¬ ¬ ((urlparse (u ++ "#" ++ frag)).scheme = "http"
        ∨ (urlparse (u ++ "#" ++ frag)).scheme = "https") from
      not_not_intro (by rw [e1]; exact h)),
    if_neg (not_not_intro h)]
  simp only [e1, e2, e3, e4]

theorem normalize_fragment_irrelevant_witness :
    normalize_url ("HTTP://Example.com/x" ++ "#" ++ "top")
      = normalize_url "HTTP://Example.com/x" :=
  normalize_fragment_irrelevant "HTTP://Example.com/x" "top" (by decide)

/-- C9 counterexample: the normalizer passes a URL with a non-http(s)
scheme through unchanged, so appending a fragment to a mailto URL
changes the normalized value. -/
theorem fragment_append_changes_nonhttp :
    normalize_url ("mailto:someone@example.com" ++ "#" ++ "x")
      ≠ normalize_url "mailto:someone@example.com" := by
  decide

end WebsiteChecker
